import Mathlib

/-!
Verification of the NoirWire shielded-pool program (Solana, Rust/Anchor).

Shallow embedding of the relevant parts of
`packages/solana-programs/programs/shielded-pool/src`:
byte-array digests become `List Nat` (each element a byte value), u64/u8/u16
machine integers become `Nat` with explicit bounds or `% 2^64` where overflow
matters, fallible instruction handlers become functions into `Except`.
The external collaborators (the Groth16 verifier CPI, the SPL token transfer,
the Anchor account machinery) are modelled as explicit boolean/number
parameters, as the spec directs.
-/

namespace NoirWire

set_option maxRecDepth 100000

/-- Byte strings (`[u8; N]` in the source) are lists of byte values. -/
abbrev Bytes := List Nat

deriving instance DecidableEq for Except

/-- Interpretation of a big-endian byte string as a natural number
(mirrors `BigUint::from_bytes_be` and `u64::from_be_bytes`). -/
def beBytesToNat (bs : Bytes) : Nat :=
  bs.foldl (fun acc b => acc * 256 + b) 0

/-- Big-endian bytes of a `u64` value (mirrors `u64::to_be_bytes`). -/
def u64ToBeBytes (v : Nat) : Bytes :=
  [v / 2 ^ 56 % 256, v / 2 ^ 48 % 256, v / 2 ^ 40 % 256, v / 2 ^ 32 % 256,
   v / 2 ^ 24 % 256, v / 2 ^ 16 % 256, v / 2 ^ 8 % 256, v % 256]

/-- Big-endian bytes of a `u32` value (mirrors `u32::to_be_bytes`). -/
def u32ToBeBytes (v : Nat) : Bytes :=
  [v / 2 ^ 24 % 256, v / 2 ^ 16 % 256, v / 2 ^ 8 % 256, v % 256]

/-- Embedding of `u64_to_field` (state/proof.rs): the value occupies the low
8 bytes of a 32-byte big-endian field element, the high 24 bytes are zero. -/
def u64_to_field (value : Nat) : Bytes :=
  List.replicate 24 0 ++ u64ToBeBytes value

/-- Embedding of `u32_to_field` (state/proof.rs). -/
def u32_to_field (value : Nat) : Bytes :=
  List.replicate 28 0 ++ u32ToBeBytes value

/-- Embedding of the `PoolError` enum (errors.rs). -/
inductive PoolError where
  | poolPaused
  | invalidMint
  | invalidMerkleRoot
  | merkleRootExpired
  | overflow
  | underflow
  | unauthorized
  | invalidNullifierProof
  | nullifierAlreadyUsed
  | invalidProof
  | invalidRecipient
  | invalidVerificationKey
  | verificationKeyHashMismatch
  | invalidTransferAmount
  | insufficientPoolBalance
  | insufficientVaultBalance
  | depositBelowMinimum
  | emergencyModeNotActive
  | historicalRootsNotInitialized
  | invalidCircuitId
  | invalidPerAuthority
  deriving DecidableEq, Repr

/-- The BN254 modulus constant used by `field_to_u64` (state/proof.rs):
hex 30644e72e131a029b85045b68181585d97816a916871ca8d3c208c16d87cfd47. -/
def bn254FieldModulus : Nat :=
  0x30644e72e131a029b85045b68181585d97816a916871ca8d3c208c16d87cfd47

/-- Embedding of `field_to_u64` (state/proof.rs): reject a non-zero byte in
the leading 24 bytes, parse the low 8 bytes big-endian, require an exact
round trip through `u64_to_field`, and require the whole 32-byte value to be
below the BN254 modulus; every rejection is `InvalidProof`. -/
def field_to_u64 (field : Bytes) : Except PoolError Nat :=
  if (field.take 24).any (fun b => b ≠ 0) then
    .error .invalidProof
  else
    let value := beBytesToNat (field.drop 24)
    if field = u64_to_field value then
      if beBytesToNat field < bn254FieldModulus then .ok value
      else .error .invalidProof
    else .error .invalidProof

/-- Embedding of `field_to_u32` (instructions/settle_batch.rs): reject a
non-zero byte in the leading 28 bytes, parse the low 4 bytes big-endian. -/
def field_to_u32 (field : Bytes) : Except PoolError Nat :=
  if (field.take 28).any (fun b => b ≠ 0) then
    .error .invalidProof
  else
    .ok (beBytesToNat (field.drop 28))

/-! Keccak-256, the hash used by `keccak::hash` in record_nullifier.rs.
The implementation below follows the Keccak reference (keccak-f[1600],
rate 1088, multi-rate padding 0x01..0x80); lanes are 64-bit words held as
`Nat` masked to 64 bits, with little-endian byte order inside a lane.
It reproduces the standard Keccak-256 test vectors. -/

/-- The 64-bit all-ones mask. -/
def mask64 : Nat := 0xFFFFFFFFFFFFFFFF

/-- Left rotation of a 64-bit lane. -/
def rotl64 (x n : Nat) : Nat :=
  ((x <<< n) ||| (x >>> (64 - n))) &&& mask64

/-- The Keccak rc linear-feedback register (polynomial
x^8 + x^6 + x^5 + x^4 + 1) after t shift steps, starting from 1. -/
def keccakLFSR : Nat → Nat
  | 0 => 1
  | t + 1 =>
    let R := keccakLFSR t <<< 1
    (if R &&& 0x100 ≠ 0 then R ^^^ 0x171 else R) &&& 0xFF

/-- Round constant i for the iota step, assembled from the LFSR bit stream:
bit 2^j - 1 of the constant is the LFSR output at step 7i + j. -/
def keccakRC (i : Nat) : Nat :=
  (List.range 7).foldl
    (fun acc j => acc ^^^ ((keccakLFSR (7 * i + j) &&& 1) <<< (2 ^ j - 1))) 0

/-- The rho lane walk: the position visited at step t, starting at (1, 0)
and moving by (x, y) to (y, 2x + 3y mod 5). -/
def keccakRhoPos : Nat → Nat × Nat
  | 0 => (1, 0)
  | t + 1 =>
    let p := keccakRhoPos t
    (p.2, (2 * p.1 + 3 * p.2) % 5)

/-- Rho rotation offset of the lane at index i = x + 5*y: the triangular
number (t+1)(t+2)/2 mod 64 of the step t at which the walk visits (x, y),
and 0 for the fixed lane (0, 0). -/
def keccakRhoOff (i : Nat) : Nat :=
  (List.range 24).foldl
    (fun acc t =>
      let p := keccakRhoPos t
      if p.1 + 5 * p.2 = i then (t + 1) * (t + 2) / 2 % 64 else acc) 0

/-- The rho offsets, tabulated by lane position x + 5*y. -/
def keccakRho : List Nat :=
  (List.range 25).map keccakRhoOff

/-- Keccak theta step on a 25-lane state. -/
def keccakTheta (A : List Nat) : List Nat :=
  let C := (List.range 5).map (fun x =>
    A.getD x 0 ^^^ A.getD (x + 5) 0 ^^^ A.getD (x + 10) 0 ^^^
    A.getD (x + 15) 0 ^^^ A.getD (x + 20) 0)
  let D := (List.range 5).map (fun x =>
    C.getD ((x + 4) % 5) 0 ^^^ rotl64 (C.getD ((x + 1) % 5) 0) 1)
  (List.range 25).map (fun i => A.getD i 0 ^^^ D.getD (i % 5) 0)

/-- Keccak rho and pi steps combined: output lane (X, Y) is the rotated
input lane (x, y) with y = X and x = (X + 3Y) mod 5. -/
def keccakRhoPi (A : List Nat) : List Nat :=
  (List.range 25).map (fun j =>
    let X := j % 5
    let Y := j / 5
    let x := (X + 3 * Y) % 5
    let y := X
    rotl64 (A.getD (x + 5 * y) 0) (keccakRho.getD (x + 5 * y) 0))

/-- Keccak chi step. -/
def keccakChi (B : List Nat) : List Nat :=
  (List.range 25).map (fun j =>
    let X := j % 5
    let Y := j / 5
    B.getD j 0 ^^^ ((mask64 ^^^ B.getD ((X + 1) % 5 + 5 * Y) 0) &&& B.getD ((X + 2) % 5 + 5 * Y) 0))

/-- One Keccak round: theta, rho, pi, chi, then iota with constant rc. -/
def keccakRound (A : List Nat) (rc : Nat) : List Nat :=
  let B := keccakChi (keccakRhoPi (keccakTheta A))
  B.set 0 (B.getD 0 0 ^^^ rc)

/-- The keccak-f[1600] permutation: 24 rounds. -/
def keccakF (A : List Nat) : List Nat :=
  (List.range 24).foldl (fun st i => keccakRound st (keccakRC i)) A

/-- Little-endian interpretation of up to 8 bytes as a 64-bit lane. -/
def bytesToLaneLE (bs : Bytes) : Nat :=
  bs.foldr (fun b acc => b + 256 * acc) 0

/-- Little-endian bytes of a 64-bit lane. -/
def laneToBytesLE (lane : Nat) : Bytes :=
  [lane % 256, lane / 2 ^ 8 % 256, lane / 2 ^ 16 % 256, lane / 2 ^ 24 % 256,
   lane / 2 ^ 32 % 256, lane / 2 ^ 40 % 256, lane / 2 ^ 48 % 256, lane / 2 ^ 56 % 256]

/-- Absorb one 136-byte block into the state and permute. -/
def keccakAbsorbBlock (st : List Nat) (block : Bytes) : List Nat :=
  keccakF ((List.range 25).map (fun i =>
    if i < 17 then st.getD i 0 ^^^ bytesToLaneLE ((block.drop (8 * i)).take 8)
    else st.getD i 0))

/-- Absorb a padded message, 136 bytes at a time; the first argument is the
number of 136-byte blocks remaining. -/
def keccakAbsorbN : Nat → List Nat → Bytes → List Nat
  | 0, st, _ => st
  | n + 1, st, rest => keccakAbsorbN n (keccakAbsorbBlock st (rest.take 136)) (rest.drop 136)

/-- Multi-rate padding for rate 136: append 0x01, zero fill, final 0x80
(collapsed to a single 0x81 when one byte of room remains). -/
def keccakPad (msg : Bytes) : Bytes :=
  let r := 136 - msg.length % 136
  if r = 1 then msg ++ [0x81]
  else msg ++ (0x01 :: List.replicate (r - 2) 0) ++ [0x80]

/-- Keccak-256 of a byte string (the `keccak::hash` used by the program). -/
def keccak256 (msg : Bytes) : Bytes :=
  let padded := keccakPad msg
  let st := keccakAbsorbN (padded.length / 136) (List.replicate 25 0) padded
  laneToBytesLE (st.getD 0 0) ++ laneToBytesLE (st.getD 1 0) ++
  laneToBytesLE (st.getD 2 0) ++ laneToBytesLE (st.getD 3 0)

/-- Embedding of `compute_merkle_root_with_indices`
(instructions/record_nullifier.rs): fold the leaf up through the siblings,
the explicit path index at level i deciding left/right placement; an index
beyond the path_indices list counts as 0 (current node on the left). -/
def compute_merkle_root_with_indices (leaf : Bytes) (proof : List Bytes)
    (path_indices : List Nat) : Bytes :=
  (proof.enum).foldl (fun current ip =>
    let i := ip.1
    let sibling := ip.2
    let is_right := if i < path_indices.length then path_indices.getD i 0 ≠ 0 else False
    if is_right then keccak256 (sibling ++ current)
    else keccak256 (current ++ sibling)) leaf

/-! State model: PoolState (state/pool_state.rs), the extended
HistoricalRoots PDA (state/historical_roots.rs), and nullifier entries
(state/nullifier.rs). Fixed-size arrays `[T; N]` become functions
`Nat → T` read only at indices below N; ring indices carry the source
invariant of being below the capacity as side hypotheses. -/

/-- Account addresses are opaque 32-byte values. -/
abbrev Key := Bytes

/-- Constant `HISTORICAL_ROOTS_SIZE` (state/pool_state.rs): inline ring size. -/
def HISTORICAL_ROOTS_SIZE : Nat := 32

/-- Constant `MAX_ROOT_AGE_SLOTS` (state/pool_state.rs). -/
def MAX_ROOT_AGE_SLOTS : Nat := 900

/-- Constant `MIN_DEPOSIT_SPL_UNITS` (state/pool_state.rs). -/
def MIN_DEPOSIT_SPL_UNITS : Nat := 1000

/-- Constant `HISTORICAL_ROOTS_CAPACITY` (state/historical_roots.rs). -/
def HISTORICAL_ROOTS_CAPACITY : Nat := 256

/-- Constant `MIN_NULLIFIER_AGE_FOR_CLEANUP` (instructions/cleanup_nullifier.rs). -/
def MIN_NULLIFIER_AGE_FOR_CLEANUP : Nat := 18000

/-- The all-zero 32-byte digest (sentinel root, empty-tree root). -/
def zeroRoot : Bytes := List.replicate 32 0

/-- Embedding of the `PoolState` account (state/pool_state.rs). -/
structure PoolState where
  version : Nat
  authority : Key
  per_authority : Key
  commitment_root : Bytes
  commitment_root_slot : Nat
  historical_roots : Nat → Bytes
  historical_roots_slots : Nat → Nat
  roots_index : Nat
  total_shielded : Nat
  token_mint : Key
  token_vault : Key
  vk_hash : Bytes
  paused : Bool
  emergency_mode : Bool
  total_deposits : Nat
  total_withdrawals : Nat
  total_nullifiers : Nat
  last_nullifiers_root : Bytes

/-- Embedding of `PoolState::is_valid_root_with_expiration`: the current
root matches (age-checked against `commitment_root_slot`), or the first
historical entry equal to the root decides (invalid when its stored slot is
0, else age-checked); `saturating_sub` is `Nat` truncated subtraction. -/
def is_valid_root_with_expiration (p : PoolState) (root : Bytes)
    (current_slot : Nat) : Bool :=
  if p.commitment_root = root then
    current_slot - p.commitment_root_slot ≤ MAX_ROOT_AGE_SLOTS
  else
    match (List.range HISTORICAL_ROOTS_SIZE).find? (fun i => p.historical_roots i = root) with
    | none => false
    | some i =>
      let root_slot := p.historical_roots_slots i
      if root_slot = 0 then false
      else current_slot - root_slot ≤ MAX_ROOT_AGE_SLOTS

/-- Embedding of `PoolState::update_root`: store the current root and its
slot at the write index, pre-clear the next slot (sentinel root, slot 0),
advance the index modulo the capacity, then install the new root. -/
def update_root (p : PoolState) (new_root : Bytes) (current_slot : Nat) : PoolState :=
  let i := p.roots_index
  let j := (p.roots_index + 1) % HISTORICAL_ROOTS_SIZE
  { p with
    historical_roots := fun k =>
      if k = j then zeroRoot else if k = i then p.commitment_root else p.historical_roots k
    historical_roots_slots := fun k =>
      if k = j then 0 else if k = i then p.commitment_root_slot else p.historical_roots_slots k
    roots_index := j
    commitment_root := new_root
    commitment_root_slot := current_slot }

/-- Embedding of the `HistoricalRoots` zero-copy PDA (state/historical_roots.rs). -/
structure HistoricalRoots where
  version : Nat
  roots_index : Nat
  pool : Key
  roots : Nat → Bytes
  slots : Nat → Nat

/-- Embedding of `HistoricalRoots::contains_with_expiration`: the zero root
is always rejected; otherwise the first matching entry decides (invalid when
its stored slot is 0, else age-checked). -/
def contains_with_expiration (h : HistoricalRoots) (root : Bytes)
    (current_slot : Nat) : Bool :=
  if root = zeroRoot then false
  else
    match (List.range HISTORICAL_ROOTS_CAPACITY).find? (fun i => h.roots i = root) with
    | none => false
    | some i =>
      let root_slot := h.slots i
      if root_slot = 0 then false
      else current_slot - root_slot ≤ MAX_ROOT_AGE_SLOTS

/-- Embedding of `HistoricalRoots::push`: store root and slot at the write
index, advance the index modulo the capacity, clear the new write slot. -/
def push (h : HistoricalRoots) (root : Bytes) (current_slot : Nat) : HistoricalRoots :=
  let i := h.roots_index
  let j := (h.roots_index + 1) % HISTORICAL_ROOTS_CAPACITY
  { h with
    roots := fun k => if k = j then zeroRoot else if k = i then root else h.roots k
    slots := fun k => if k = j then 0 else if k = i then current_slot else h.slots k
    roots_index := j }

/-- Embedding of `HistoricalRoots::init` plus the zeroed account Solana
hands to it: fresh index, all entries sentinel. -/
def init_historical_roots (pool : Key) : HistoricalRoots :=
  { version := 2, roots_index := 0, pool := pool
    roots := fun _ => zeroRoot, slots := fun _ => 0 }

/-- Checked u64 addition (`checked_add` mapped to `PoolError::Overflow`). -/
def checkedAdd (a b : Nat) : Except PoolError Nat :=
  if a + b < 2 ^ 64 then .ok (a + b) else .error .overflow

/-- Checked u64 subtraction (`checked_sub` mapped to `PoolError::Underflow`). -/
def checkedSub (a b : Nat) : Except PoolError Nat :=
  if b ≤ a then .ok (a - b) else .error .underflow

/-- Transaction-level error: either a typed `PoolError` raised by the
program, or the Anchor account-init failure on an already existing
nullifier PDA. Modelled from the spec: the `init` constraint on
`nullifier_entry` (record_nullifier.rs, withdraw.rs) makes account creation
fail when an entry already exists; the spec names this failure
`DuplicateNullifier`. -/
inductive TxError where
  | pool (e : PoolError)
  | duplicateNullifier
  deriving DecidableEq, Repr

/-- Full on-chain state touched by the pool instructions: the pool account,
the set of existing nullifier-entry PDAs (value and creation slot), the
optional extended HistoricalRoots PDA, and the vault token balance. -/
structure ChainState where
  pool : PoolState
  nullifiers : List (Bytes × Nat)
  historical : Option HistoricalRoots
  vault_balance : Nat

/-- Whether a nullifier-entry PDA already exists for this value. -/
def nullifierExists (s : ChainState) (n : Bytes) : Bool :=
  s.nullifiers.any (fun e => e.1 = n)

/-- Embedding of `initialize::handler` (instructions/initialize.rs): zero
root (empty tree), current slot stamped, zeroed history and counters. -/
def init_pool (authority token_mint vk_hash per_authority token_vault : Bytes)
    (current_slot : Nat) : PoolState :=
  { version := 2
    authority := authority
    per_authority := per_authority
    commitment_root := zeroRoot
    commitment_root_slot := current_slot
    historical_roots := fun _ => zeroRoot
    historical_roots_slots := fun _ => 0
    roots_index := 0
    total_shielded := 0
    token_mint := token_mint
    token_vault := token_vault
    vk_hash := vk_hash
    paused := false
    emergency_mode := false
    total_deposits := 0
    total_withdrawals := 0
    total_nullifiers := 0
    last_nullifiers_root := zeroRoot }

/-- A freshly initialized chain state: new pool, no nullifier entries, no
extended buffer yet, empty vault. -/
def initChain (authority token_mint vk_hash per_authority token_vault : Bytes)
    (current_slot : Nat) : ChainState :=
  { pool := init_pool authority token_mint vk_hash per_authority token_vault current_slot
    nullifiers := []
    historical := none
    vault_balance := 0 }

/-- Embedding of `set_paused::handler` (instructions/set_paused.rs) together
with its `has_one = authority` account constraint. -/
def set_paused (s : ChainState) (caller : Key) (paused : Bool) : Except TxError ChainState :=
  if caller ≠ s.pool.authority then .error (.pool .unauthorized)
  else .ok { s with pool := { s.pool with paused := paused } }

/-- Embedding of `set_emergency_mode_handler` (instructions/set_paused.rs):
admin only; enabling requires the pool to be paused. -/
def set_emergency_mode (s : ChainState) (caller : Key) (emergency_mode : Bool) :
    Except TxError ChainState :=
  if caller ≠ s.pool.authority then .error (.pool .unauthorized)
  else if emergency_mode ∧ s.pool.paused = false then .error (.pool .poolPaused)
  else .ok { s with pool := { s.pool with emergency_mode := emergency_mode } }

/-- Embedding of `record_nullifier::handler` (instructions/record_nullifier.rs).
The Anchor account phase (the `init` on the nullifier PDA) runs first, so an
existing entry aborts before the handler body; then the handler requires the
root to match `last_nullifiers_root`, the lengths to agree, and the Merkle
fold to reproduce the root, and finally creates the entry. -/
def record_nullifier (s : ChainState) (nullifier nullifiers_root : Bytes)
    (merkle_proof : List Bytes) (path_indices : List Nat) (current_slot : Nat) :
    Except TxError ChainState :=
  if nullifierExists s nullifier then .error .duplicateNullifier
  else if s.pool.last_nullifiers_root ≠ nullifiers_root then
    .error (.pool .invalidNullifierProof)
  else if merkle_proof.length ≠ path_indices.length then
    .error (.pool .invalidNullifierProof)
  else if compute_merkle_root_with_indices nullifier merkle_proof path_indices ≠ nullifiers_root then
    .error (.pool .invalidNullifierProof)
  else .ok { s with nullifiers := (nullifier, current_slot) :: s.nullifiers }

/-- Public inputs of a withdrawal proof bundle (state/proof.rs). -/
structure WithdrawProofData where
  amount : Bytes
  recipient : Bytes
  nullifier : Bytes
  old_root : Bytes
  new_root : Bytes

/-- Embedding of `withdraw::handler` (instructions/withdraw.rs) plus its
account constraints, as one atomic transition: a failed step aborts the
whole transaction with no state change. External collaborators appear as
parameters: `vk_ok` is the keccak VK-hash comparison, `verify_ok` the
Groth16 CPI verdict. -/
def withdraw (s : ChainState) (pd : WithdrawProofData) (recipient : Key)
    (current_slot : Nat) (vk_ok verify_ok : Bool) : Except TxError ChainState :=
  if s.pool.paused then .error (.pool .poolPaused)
  else if nullifierExists s pd.nullifier then .error .duplicateNullifier
  else if recipient ≠ pd.recipient then .error (.pool .invalidRecipient)
  else
    match field_to_u64 pd.amount with
    | .error e => .error (.pool e)
    | .ok amount =>
      let root_valid_in_pool := is_valid_root_with_expiration s.pool pd.old_root current_slot
      let root_valid_in_extended :=
        match s.historical with
        | some h => contains_with_expiration h pd.old_root current_slot
        | none => false
      if ¬(root_valid_in_pool || root_valid_in_extended) then
        .error (.pool .merkleRootExpired)
      else if ¬vk_ok then .error (.pool .verificationKeyHashMismatch)
      else if ¬verify_ok then .error (.pool .invalidProof)
      else if ¬(amount ≤ s.pool.total_shielded) then .error (.pool .insufficientPoolBalance)
      else if ¬(amount ≤ s.vault_balance) then .error (.pool .insufficientVaultBalance)
      else
        match checkedSub s.pool.total_shielded amount with
        | .error e => .error (.pool e)
        | .ok ts =>
          match checkedAdd s.pool.total_withdrawals 1 with
          | .error e => .error (.pool e)
          | .ok tw =>
            match checkedAdd s.pool.total_nullifiers 1 with
            | .error e => .error (.pool e)
            | .ok tn =>
              let p1 := update_root s.pool pd.new_root current_slot
              .ok { s with
                pool := { p1 with
                  total_shielded := ts, total_withdrawals := tw, total_nullifiers := tn }
                nullifiers := (pd.nullifier, current_slot) :: s.nullifiers
                vault_balance := s.vault_balance - amount }

/-- Public inputs of a deposit proof bundle (state/proof.rs). -/
structure DepositProofData where
  deposit_amount : Bytes
  new_commitment : Bytes
  leaf_index : Bytes
  old_root : Bytes
  new_root : Bytes

/-- Embedding of `deposit::handler` (instructions/deposit.rs) as one atomic
transition. `vault_after` is the vault balance re-read after the external
token transfer; `vk_ok` and `verify_ok` stand for the VK-hash comparison
and the Groth16 CPI verdict. -/
def deposit (s : ChainState) (amount : Nat) (pd : DepositProofData)
    (current_slot : Nat) (vk_ok verify_ok : Bool) (vault_after : Nat) :
    Except TxError ChainState :=
  if s.pool.paused then .error (.pool .poolPaused)
  else if ¬(MIN_DEPOSIT_SPL_UNITS ≤ amount) then .error (.pool .depositBelowMinimum)
  else if pd.deposit_amount ≠ u64_to_field amount then .error (.pool .invalidProof)
  else if pd.old_root ≠ s.pool.commitment_root then .error (.pool .invalidMerkleRoot)
  else if ¬vk_ok then .error (.pool .verificationKeyHashMismatch)
  else if ¬verify_ok then .error (.pool .invalidProof)
  else
    match checkedSub vault_after s.vault_balance with
    | .error e => .error (.pool e)
    | .ok actual_transferred =>
      if actual_transferred ≠ amount then .error (.pool .invalidTransferAmount)
      else
        let old_root := s.pool.commitment_root
        let p1 := update_root s.pool pd.new_root current_slot
        match checkedAdd p1.total_shielded actual_transferred with
        | .error e => .error (.pool e)
        | .ok ts =>
          match checkedAdd p1.total_deposits 1 with
          | .error e => .error (.pool e)
          | .ok td =>
            let p2 := { p1 with total_shielded := ts, total_deposits := td }
            match s.historical with
            | some h =>
              .ok { s with
                    pool := p2, vault_balance := vault_after,
                    historical := some (push h old_root current_slot) }
            | none => .ok { s with pool := p2, vault_balance := vault_after }

/-- Public inputs of a batch settlement proof bundle (state/proof.rs). -/
structure BatchSettlementProofData where
  old_root : Bytes
  new_root : Bytes
  nullifiers_root : Bytes
  nullifier_count : Bytes

/-- The checks `settle_batch` performs before invoking the Groth16 verifier
(instructions/settle_batch.rs): pause and PER-authority account constraints,
`field_to_u32` on the count field, and the old-root match. On success it
returns the decoded count together with the public-input list handed to the
verifier (`BatchSettlementProofData::public_inputs`). -/
def settle_batch_prechecks (s : ChainState) (pd : BatchSettlementProofData)
    (authorized : Bool) : Except TxError (Nat × List Bytes) :=
  if s.pool.paused then .error (.pool .poolPaused)
  else if ¬authorized then .error (.pool .unauthorized)
  else
    match field_to_u32 pd.nullifier_count with
    | .error e => .error (.pool e)
    | .ok nullifier_count =>
      if pd.old_root ≠ s.pool.commitment_root then .error (.pool .invalidMerkleRoot)
      else .ok (nullifier_count, [pd.old_root, pd.new_root, pd.nullifiers_root, pd.nullifier_count])

/-- Embedding of `settle_batch::handler` as one atomic transition, built on
`settle_batch_prechecks`; `verify_ok` is the Groth16 CPI verdict. -/
def settle_batch (s : ChainState) (pd : BatchSettlementProofData)
    (authorized : Bool) (current_slot : Nat) (verify_ok : Bool) :
    Except TxError ChainState :=
  match settle_batch_prechecks s pd authorized with
  | .error e => .error e
  | .ok (nullifier_count, _) =>
    if ¬verify_ok then .error (.pool .invalidProof)
    else
      match checkedAdd s.pool.total_nullifiers nullifier_count with
      | .error e => .error (.pool e)
      | .ok tn =>
        let p1 := { s.pool with
                    last_nullifiers_root := pd.nullifiers_root,
                    total_nullifiers := tn }
        .ok { s with pool := update_root p1 pd.new_root current_slot }

/-- Embedding of `emergency_withdraw::handler`
(instructions/emergency_withdraw.rs) plus its account constraints: pool
paused and in emergency mode, admin-authorized; balance checks, external
transfer, then checked accounting updates. The merkle root, root history
and nullifier set are not touched. -/
def emergency_withdraw (s : ChainState) (caller _recipient : Key) (amount : Nat) :
    Except TxError ChainState :=
  if s.pool.paused = false then .error (.pool .poolPaused)
  else if s.pool.emergency_mode = false then .error (.pool .emergencyModeNotActive)
  else if caller ≠ s.pool.authority then .error (.pool .unauthorized)
  else if ¬(amount ≤ s.pool.total_shielded) then .error (.pool .insufficientPoolBalance)
  else if ¬(amount ≤ s.vault_balance) then .error (.pool .insufficientVaultBalance)
  else
    match checkedSub s.pool.total_shielded amount with
    | .error e => .error (.pool e)
    | .ok ts =>
      match checkedAdd s.pool.total_withdrawals 1 with
      | .error e => .error (.pool e)
      | .ok tw =>
        .ok { s with
          pool := { s.pool with total_shielded := ts, total_withdrawals := tw }
          vault_balance := s.vault_balance - amount }

/-- Host-ledger semantics of a failed transaction: an instruction that
returns an error leaves the persisted state exactly as it was. -/
def runTx (s : ChainState) (r : Except TxError ChainState) : ChainState :=
  match r with
  | .ok s' => s'
  | .error _ => s

/-- States reachable from a freshly initialized pool by any sequence of the
modelled operations. -/
inductive Reachable : ChainState → Prop where
  | init (authority token_mint vk_hash per_authority token_vault : Bytes) (slot : Nat) :
      Reachable (initChain authority token_mint vk_hash per_authority token_vault slot)
  | pause (s s' : ChainState) (caller : Key) (b : Bool) :
      Reachable s → set_paused s caller b = .ok s' → Reachable s'
  | emergency (s s' : ChainState) (caller : Key) (b : Bool) :
      Reachable s → set_emergency_mode s caller b = .ok s' → Reachable s'
  | rec_null (s s' : ChainState) (n r : Bytes) (mp : List Bytes) (pi : List Nat) (slot : Nat) :
      Reachable s → record_nullifier s n r mp pi slot = .ok s' → Reachable s'
  | wd (s s' : ChainState) (pd : WithdrawProofData) (recipient : Key)
      (slot : Nat) (vk ver : Bool) :
      Reachable s → withdraw s pd recipient slot vk ver = .ok s' → Reachable s'
  | dep (s s' : ChainState) (amount : Nat) (pd : DepositProofData) (slot : Nat)
      (vk ver : Bool) (vault_after : Nat) :
      Reachable s → deposit s amount pd slot vk ver vault_after = .ok s' → Reachable s'
  | batch (s s' : ChainState) (pd : BatchSettlementProofData) (auth : Bool)
      (slot : Nat) (ver : Bool) :
      Reachable s → settle_batch s pd auth slot ver = .ok s' → Reachable s'
  | ew (s s' : ChainState) (caller recipient : Key) (amount : Nat) :
      Reachable s → emergency_withdraw s caller recipient amount = .ok s' → Reachable s'

/-- The test leaf L = [1u8; 32] from the spec's Merkle property. -/
def leafL : Bytes := List.replicate 32 1

/-- The test sibling A = [2u8; 32] from the spec's Merkle property. -/
def sibA : Bytes := List.replicate 32 2

/-- A small concrete pool used in witnesses and counterexamples. -/
def basePool : PoolState := init_pool [1] [2] [3] [4] [5] 100

/-- A small concrete chain state used in witnesses and counterexamples. -/
def baseChain : ChainState := initChain [1] [2] [3] [4] [5] 100

/-- Admin trace for the pause/emergency machine: pause, enter emergency
mode, then unpause while emergency mode is still set. -/
def c3Trace : Except TxError ChainState :=
  (set_paused baseChain [1] true).bind fun s1 =>
  (set_emergency_mode s1 [1] true).bind fun s2 =>
  set_paused s2 [1] false

/-- The state reached by `c3Trace`. -/
def c3Final : ChainState :=
  match c3Trace with
  | .ok s => s
  | .error _ => baseChain

/-- The base chain, paused (for emergency-mode witnesses). -/
def pausedChain : ChainState :=
  { baseChain with pool := { baseChain.pool with paused := true } }

/-- The paused chain after enabling emergency mode. -/
def emChain : ChainState :=
  match set_emergency_mode pausedChain [1] true with
  | .ok s => s
  | .error _ => pausedChain

/-- The base chain with one existing nullifier entry (value leafL). -/
def dupChain : ChainState :=
  { baseChain with nullifiers := [(leafL, 50)] }

/-- A concrete withdrawal proof bundle whose nullifier is leafL. -/
def dupWithdrawBundle : WithdrawProofData :=
  { amount := u64_to_field 1, recipient := [9], nullifier := leafL
    old_root := zeroRoot, new_root := sibA }

/-- A paused, emergency-mode chain with funds, for emergency withdrawals. -/
def c9Chain : ChainState :=
  { baseChain with
    pool := { baseChain.pool with
              paused := true, emergency_mode := true, total_shielded := 500 }
    nullifiers := [(leafL, 50)]
    vault_balance := 600 }

/-- The state after a successful emergency withdrawal of 200 from c9Chain. -/
def c9After : ChainState :=
  match emergency_withdraw c9Chain [1] [9] 200 with
  | .ok s => s
  | .error _ => c9Chain

/-- A batch settlement bundle whose new_root field is 32 bytes of 0xFF — a
value far above the BN254 field modulus. -/
def c4Bundle : BatchSettlementProofData :=
  { old_root := zeroRoot, new_root := List.replicate 32 0xFF
    nullifiers_root := zeroRoot, nullifier_count := u32_to_field 0 }

/-- An extended buffer holding exactly one root leafL stamped at slot 50. -/
def c5Hist : HistoricalRoots :=
  { init_historical_roots [1] with
    roots := fun k => if k = 0 then leafL else zeroRoot
    slots := fun k => if k = 0 then 50 else 0 }

/-- A pool whose inline history holds one root leafL stamped at slot 50. -/
def c5Pool : PoolState :=
  { basePool with
    historical_roots := fun k => if k = 0 then leafL else zeroRoot
    historical_roots_slots := fun k => if k = 0 then 50 else 0 }

/-- Sequentially push a list of (root, slot) pairs into the extended buffer. -/
def pushAll (h : HistoricalRoots) (l : List (Bytes × Nat)) : HistoricalRoots :=
  l.foldl (fun b e => push b e.1 e.2) h

/-- 256 pairwise-distinct roots (with stamps), for the wraparound witness. -/
def c6Entries : List (Bytes × Nat) :=
  (List.range 256).map (fun i => (u64_to_field (i + 1), i + 1))

/-- A fresh chain that also carries the extended HistoricalRoots PDA. -/
def c10Chain : ChainState :=
  { baseChain with historical := some (init_historical_roots [1]) }

/-- A deposit bundle matching c10Chain's current (zero) root. -/
def c10Bundle : DepositProofData :=
  { deposit_amount := u64_to_field 1000, new_commitment := leafL
    leaf_index := u64_to_field 0, old_root := zeroRoot, new_root := sibA }

/-- The state after a successful deposit of 1000 into c10Chain at slot 120. -/
def c10After : ChainState :=
  match deposit c10Chain 1000 c10Bundle 120 true true 1000 with
  | .ok s => s
  | .error _ => c10Chain

/-! Theorems. -/

/-- Every entry of the buffer after a sequence of pushes is the sentinel, a
pushed root, or the original entry at an index no push has written. -/
theorem pushAll_entry (l : List (Bytes × Nat)) :
    ∀ (b : HistoricalRoots) (j : Nat), b.roots_index < HISTORICAL_ROOTS_CAPACITY →
      (pushAll b l).roots j = zeroRoot ∨
      (pushAll b l).roots j ∈ l.map Prod.fst ∨
      ((pushAll b l).roots j = b.roots j ∧
        ∀ t, t < l.length → (b.roots_index + t) % HISTORICAL_ROOTS_CAPACITY ≠ j) := by
  induction l with
  | nil =>
    intro b j _
    right; right
    exact ⟨rfl, fun t ht => absurd ht (by simp)⟩
  | cons e l' ih =>
    intro b j hb
    have hidx : (push b e.1 e.2).roots_index < HISTORICAL_ROOTS_CAPACITY := by
      simp only [push, HISTORICAL_ROOTS_CAPACITY]
      omega
    have hidx2 : (push b e.1 e.2).roots_index =
        (b.roots_index + 1) % HISTORICAL_ROOTS_CAPACITY := by
      simp [push]
    have hstep : pushAll b (e :: l') = pushAll (push b e.1 e.2) l' := by
      simp [pushAll]
    rw [hstep]
    rcases ih (push b e.1 e.2) j hidx with h0 | hmem | ⟨heq, hun⟩
    · exact Or.inl h0
    · right; left
      simp only [List.map_cons, List.mem_cons]
      exact Or.inr hmem
    · by_cases hj1 : j = (b.roots_index + 1) % HISTORICAL_ROOTS_CAPACITY
      · left
        rw [heq]
        simp [push, hj1]
      · by_cases hj2 : j = b.roots_index
        · right; left
          rw [heq]
          have hne2 : ¬(b.roots_index = (b.roots_index + 1) % HISTORICAL_ROOTS_CAPACITY) := by
            simp only [HISTORICAL_ROOTS_CAPACITY] at hb ⊢
            omega
          subst hj2
          simp [push, hne2]
        · right; right
          refine ⟨by rw [heq]; simp [push, hj1, hj2], ?_⟩
          intro t ht
          cases t with
          | zero =>
            intro hcon
            apply hj2
            rw [Nat.add_zero, Nat.mod_eq_of_lt hb] at hcon
            exact hcon.symm
          | succ t' =>
            intro hcon
            have ht' : t' < l'.length := by
              simp at ht
              omega
            apply hun t' ht'
            rw [hidx2]
            simp only [HISTORICAL_ROOTS_CAPACITY] at hcon ⊢
            omega

/-- C6: after every push (and every update_root) the entry at the new
write index is the sentinel (zero root, stamp 0); consequently, pushing
capacity + 1 roots whose first element differs from all later ones into a
fresh extended buffer leaves the first (oldest) root invalid according to
the membership check. -/
theorem C6_wraparound_sentinel :
    (∀ (h : HistoricalRoots) (r : Bytes) (s : Nat),
      (push h r s).roots ((push h r s).roots_index) = zeroRoot ∧
      (push h r s).slots ((push h r s).roots_index) = 0) ∧
    (∀ (p : PoolState) (nr : Bytes) (s : Nat),
      (update_root p nr s).historical_roots ((update_root p nr s).roots_index) = zeroRoot ∧
      (update_root p nr s).historical_roots_slots ((update_root p nr s).roots_index) = 0) ∧
    (∀ (pool : Key) (r0 : Bytes) (s0 : Nat) (entries : List (Bytes × Nat)) (cur : Nat),
      entries.length = HISTORICAL_ROOTS_CAPACITY →
      (∀ e ∈ entries, e.1 ≠ r0) →
      contains_with_expiration (pushAll (init_historical_roots pool) ((r0, s0) :: entries))
        r0 cur = false) := by
  refine ⟨fun h r s => ⟨by simp [push], by simp [push]⟩,
    fun p nr s => ⟨by simp [update_root], by simp [update_root]⟩, ?_⟩
  intro pool r0 s0 entries cur hlen hne
  by_cases hz : r0 = zeroRoot
  · simp [contains_with_expiration, hz]
  · have hstep : pushAll (init_historical_roots pool) ((r0, s0) :: entries) =
        pushAll (push (init_historical_roots pool) r0 s0) entries := by
      simp [pushAll]
    have hb1 : (push (init_historical_roots pool) r0 s0).roots_index = 1 := by
      simp [push, init_historical_roots, HISTORICAL_ROOTS_CAPACITY]
    have hnone : ∀ j ∈ List.range HISTORICAL_ROOTS_CAPACITY,
        ¬((pushAll (push (init_historical_roots pool) r0 s0) entries).roots j = r0) := by
      intro j hj
      have hjlt : j < HISTORICAL_ROOTS_CAPACITY := List.mem_range.mp hj
      rcases pushAll_entry entries (push (init_historical_roots pool) r0 s0) j
          (by rw [hb1]; simp [HISTORICAL_ROOTS_CAPACITY]) with h0 | hmem | ⟨_, hun⟩
      · rw [h0]
        exact fun hh => hz hh.symm
      · intro hh
        rw [hh] at hmem
        obtain ⟨e, he, he1⟩ := List.mem_map.mp hmem
        exact hne e he he1
      · exfalso
        simp only [HISTORICAL_ROOTS_CAPACITY] at hjlt hun
        have hcov := hun ((j + 255) % 256)
          (by rw [hlen]; show (j + 255) % 256 < 256; omega)
        rw [hb1] at hcov
        apply hcov
        omega
    have hfind : (List.range HISTORICAL_ROOTS_CAPACITY).find?
        (fun j => (pushAll (push (init_historical_roots pool) r0 s0) entries).roots j = r0) =
        none := by
      rw [List.find?_eq_none]
      intro x hx
      simpa using hnone x hx
    rw [hstep]
    simp only [contains_with_expiration, if_neg hz, hfind]

/-- C6 witness at concrete inputs. -/
theorem C6_wraparound_sentinel_witness :
    ((push c5Hist sibA 70).roots ((push c5Hist sibA 70).roots_index) = zeroRoot ∧
      (push c5Hist sibA 70).slots ((push c5Hist sibA 70).roots_index) = 0) ∧
    ((update_root basePool sibA 70).historical_roots
        ((update_root basePool sibA 70).roots_index) = zeroRoot ∧
      (update_root basePool sibA 70).historical_roots_slots
        ((update_root basePool sibA 70).roots_index) = 0) ∧
    c6Entries.length = HISTORICAL_ROOTS_CAPACITY ∧
    (∀ e ∈ c6Entries, e.1 ≠ leafL) ∧
    contains_with_expiration (pushAll (init_historical_roots [1]) ((leafL, 7) :: c6Entries))
      leafL 1000 = false := by
  refine ⟨C6_wraparound_sentinel.1 c5Hist sibA 70,
    C6_wraparound_sentinel.2.1 basePool sibA 70, by decide, by decide, ?_⟩
  exact C6_wraparound_sentinel.2.2 [1] leafL 7 c6Entries 1000 (by decide) (by decide)

/-- The find? of a decidable predicate over `List.range' s len` returns the
least satisfying index. -/
theorem find?_range'_eq_some (p : Nat → Bool) :
    ∀ (len s i : Nat), s ≤ i → i < s + len → p i = true →
      (∀ j, s ≤ j → j < i → p j = false) →
      (List.range' s len).find? p = some i := by
  intro len
  induction len with
  | zero =>
    intro s i h1 h2 _ _
    exact absurd h2 (by omega)
  | succ n ih =>
    intro s i h1 h2 hp hlt
    rw [List.range'_succ]
    by_cases hsi : i = s
    · subst hsi
      rw [List.find?_cons_of_pos _ hp]
    · have hps : p s = false := hlt s le_rfl (by omega)
      rw [List.find?_cons_of_neg _ (by simp [hps])]
      exact ih (s + 1) i (by omega) (by omega) hp (fun j hj1 hj2 => hlt j (by omega) hj2)

/-- The find? of a decidable predicate over `List.range n` returns the
least satisfying index. -/
theorem find?_range_eq_some (p : Nat → Bool) (n i : Nat) (hi : i < n) (hp : p i = true)
    (hlt : ∀ j, j < i → p j = false) : (List.range n).find? p = some i := by
  rw [List.range_eq_range']
  exact find?_range'_eq_some p n 0 i (Nat.zero_le i) (by omega) hp (fun j _ hj => hlt j hj)

/-- C5: a root recorded at slot S (non-zero stamp, not overwritten, found
at its buffer position) is reported valid at current slot S +
MAX_ROOT_AGE_SLOTS and invalid at S + MAX_ROOT_AGE_SLOTS + 1, both by the
extended buffer check and by the inline pool check. -/
theorem C5_root_expiration_boundary :
    (∀ (h : HistoricalRoots) (r : Bytes) (S i : Nat),
      r ≠ zeroRoot → i < HISTORICAL_ROOTS_CAPACITY → h.roots i = r →
      (∀ j, j < i → h.roots j ≠ r) → h.slots i = S → S ≠ 0 →
      contains_with_expiration h r (S + MAX_ROOT_AGE_SLOTS) = true ∧
      contains_with_expiration h r (S + MAX_ROOT_AGE_SLOTS + 1) = false) ∧
    (∀ (p : PoolState) (r : Bytes) (S i : Nat),
      p.commitment_root ≠ r → i < HISTORICAL_ROOTS_SIZE → p.historical_roots i = r →
      (∀ j, j < i → p.historical_roots j ≠ r) → p.historical_roots_slots i = S → S ≠ 0 →
      is_valid_root_with_expiration p r (S + MAX_ROOT_AGE_SLOTS) = true ∧
      is_valid_root_with_expiration p r (S + MAX_ROOT_AGE_SLOTS + 1) = false) := by
  constructor
  · intro h r S i hnz hi hroot hfirst hslot hS0
    have hfind : (List.range HISTORICAL_ROOTS_CAPACITY).find?
        (fun j => h.roots j = r) = some i := by
      apply find?_range_eq_some _ _ i hi (by simp [hroot])
      intro j hj
      simp [hfirst j hj]
    constructor
    · simp only [contains_with_expiration, if_neg hnz, hfind, hslot, if_neg hS0]
      simp [MAX_ROOT_AGE_SLOTS]
    · simp only [contains_with_expiration, if_neg hnz, hfind, hslot, if_neg hS0]
      simp [MAX_ROOT_AGE_SLOTS]
      omega
  · intro p r S i hne hi hroot hfirst hslot hS0
    have hfind : (List.range HISTORICAL_ROOTS_SIZE).find?
        (fun j => p.historical_roots j = r) = some i := by
      apply find?_range_eq_some _ _ i hi (by simp [hroot])
      intro j hj
      simp [hfirst j hj]
    constructor
    · simp only [is_valid_root_with_expiration, if_neg hne, hfind, hslot, if_neg hS0]
      simp [MAX_ROOT_AGE_SLOTS]
    · simp only [is_valid_root_with_expiration, if_neg hne, hfind, hslot, if_neg hS0]
      simp [MAX_ROOT_AGE_SLOTS]
      omega

/-- C5 witness at concrete inputs. -/
theorem C5_root_expiration_boundary_witness :
    (leafL ≠ zeroRoot ∧ (0 : Nat) < HISTORICAL_ROOTS_CAPACITY ∧
      c5Hist.roots 0 = leafL ∧ c5Hist.slots 0 = 50 ∧ (50 : Nat) ≠ 0 ∧
      contains_with_expiration c5Hist leafL (50 + MAX_ROOT_AGE_SLOTS) = true ∧
      contains_with_expiration c5Hist leafL (50 + MAX_ROOT_AGE_SLOTS + 1) = false) ∧
    (c5Pool.commitment_root ≠ leafL ∧ (0 : Nat) < HISTORICAL_ROOTS_SIZE ∧
      c5Pool.historical_roots 0 = leafL ∧ c5Pool.historical_roots_slots 0 = 50 ∧
      is_valid_root_with_expiration c5Pool leafL (50 + MAX_ROOT_AGE_SLOTS) = true ∧
      is_valid_root_with_expiration c5Pool leafL (50 + MAX_ROOT_AGE_SLOTS + 1) = false) := by
  have h1 := C5_root_expiration_boundary.1 c5Hist leafL 50 0 (by decide) (by decide) rfl
    (fun j hj => absurd hj (Nat.not_lt_zero j)) rfl (by decide)
  have h2 := C5_root_expiration_boundary.2 c5Pool leafL 50 0 (by decide) (by decide) rfl
    (fun j hj => absurd hj (Nat.not_lt_zero j)) rfl (by decide)
  exact ⟨⟨by decide, by decide, rfl, rfl, by decide, h1.1, h1.2⟩,
    ⟨by decide, by decide, rfl, rfl, h2.1, h2.2⟩⟩

/-- C4 counterexample: a batch settlement bundle whose new_root field
encodes a value at least the BN254 field modulus passes every check
settle_batch performs before invoking the proof verifier, and that field is
handed to the verifier among the public inputs — so the four numeric fields
are NOT all range-checked before verification (and no MalformedPublicInput
error exists in the program's error type). -/
theorem C4_unchecked_field_reaches_verifier :
    settle_batch_prechecks baseChain c4Bundle true =
      .ok (0, [zeroRoot, List.replicate 32 0xFF, zeroRoot, u32_to_field 0]) ∧
    bn254FieldModulus ≤ beBytesToNat c4Bundle.new_root := by
  exact ⟨by decide, by decide⟩

/-- Four-byte big-endian values are below 2^32. -/
theorem beBytesToNat_four_lt (a b c d : Nat)
    (ha : a < 256) (hb : b < 256) (hc : c < 256) (hd : d < 256) :
    beBytesToNat [a, b, c, d] < 2 ^ 32 := by
  simp only [beBytesToNat, List.foldl]
  norm_num
  omega

/-- C4 (amended): only the decoded numeric fields are range-checked before
verification — field_to_u64 (the withdraw amount) accepts only values whose
full 32-byte encoding is below the BN254 modulus, field_to_u32 (the batch
nullifier count) accepts only values below 2^32 (hence below the modulus) —
and every decode failure surfaces as InvalidProof (MalformedPublicInput
does not exist); the remaining fields reach the verifier unchecked. -/
theorem C4_field_decode_range_checks :
    (∀ (f : Bytes) (v : Nat), field_to_u64 f = .ok v →
      beBytesToNat f < bn254FieldModulus) ∧
    (∀ (f : Bytes) (e : PoolError), field_to_u64 f = .error e → e = .invalidProof) ∧
    (∀ (f : Bytes) (v : Nat), f.length = 32 → (∀ b ∈ f, b < 256) →
      field_to_u32 f = .ok v → v < 2 ^ 32 ∧ v < bn254FieldModulus) ∧
    (∀ (f : Bytes) (e : PoolError), field_to_u32 f = .error e → e = .invalidProof) := by
  refine ⟨?_, ?_, ?_, ?_⟩
  · intro f v h
    simp only [field_to_u64] at h
    split at h
    · simp at h
    split at h
    · split at h
      · rename_i hlt
        exact hlt
      · simp at h
    · simp at h
  · intro f e h
    simp only [field_to_u64] at h
    split at h
    · simp at h
      exact h.symm
    split at h
    · split at h
      · simp at h
      · simp at h
        exact h.symm
    · simp at h
      exact h.symm
  · intro f v hf32 hbytes h
    simp only [field_to_u32] at h
    split at h
    · simp at h
    have hlen : (f.drop 28).length = 4 := by simp [hf32]
    have hmem : ∀ b ∈ f.drop 28, b < 256 := fun b hb =>
      hbytes b (List.mem_of_mem_drop hb)
    have hv : v = beBytesToNat (f.drop 28) := by
      simp at h
      exact h.symm
    have h32 : beBytesToNat (f.drop 28) < 2 ^ 32 := by
      rcases hl : f.drop 28 with _ | ⟨a, _ | ⟨b, _ | ⟨c, _ | ⟨d, _ | ⟨e, t⟩⟩⟩⟩⟩
      · rw [hl] at hlen; simp at hlen
      · rw [hl] at hlen; simp at hlen
      · rw [hl] at hlen; simp at hlen
      · rw [hl] at hlen; simp at hlen
      · rw [hl] at hmem
        exact beBytesToNat_four_lt a b c d (hmem a (by simp)) (hmem b (by simp))
          (hmem c (by simp)) (hmem d (by simp))
      · rw [hl] at hlen; simp at hlen
    have hp : (2 : Nat) ^ 32 < bn254FieldModulus := by norm_num [bn254FieldModulus]
    omega
  · intro f e h
    simp only [field_to_u32] at h
    split at h
    · simp at h
      exact h.symm
    · simp at h

/-- C4 witness at concrete inputs. -/
theorem C4_field_decode_range_checks_witness :
    field_to_u64 (u64_to_field 7) = .ok 7 ∧
    beBytesToNat (u64_to_field 7) < bn254FieldModulus ∧
    field_to_u64 leafL = .error PoolError.invalidProof ∧
    (u32_to_field 9).length = 32 ∧
    (∀ b ∈ u32_to_field 9, b < 256) ∧
    field_to_u32 (u32_to_field 9) = .ok 9 ∧
    (9 < 2 ^ 32 ∧ 9 < bn254FieldModulus) ∧
    field_to_u32 leafL = .error PoolError.invalidProof := by
  have h1 : field_to_u64 (u64_to_field 7) = .ok 7 := by decide
  have h3 : ∀ b ∈ u32_to_field 9, b < 256 := by decide
  have h4 : field_to_u32 (u32_to_field 9) = .ok 9 := by decide
  exact ⟨h1, C4_field_decode_range_checks.1 _ 7 h1, by decide, by decide, h3, h4,
    C4_field_decode_range_checks.2.2.1 (u32_to_field 9) 9 (by decide) h3 h4, by decide⟩

/-- C1: when a nullifier entry already exists for a value X, recording X
again — directly through record_nullifier, or through a withdrawal whose
bundle carries nullifier X — fails with DuplicateNullifier, and the failed
transaction leaves the persisted chain state (in particular all ledger
counters, balances and roots) unchanged. -/
theorem C1_duplicate_nullifier_rejected :
    (∀ (s : ChainState) (n root : Bytes) (mp : List Bytes) (pidx : List Nat) (slot : Nat),
      nullifierExists s n = true →
      record_nullifier s n root mp pidx slot = .error .duplicateNullifier ∧
      runTx s (record_nullifier s n root mp pidx slot) = s) ∧
    (∀ (s : ChainState) (pd : WithdrawProofData) (r : Key) (slot : Nat) (vk ver : Bool),
      s.pool.paused = false → nullifierExists s pd.nullifier = true →
      withdraw s pd r slot vk ver = .error .duplicateNullifier ∧
      runTx s (withdraw s pd r slot vk ver) = s) := by
  constructor
  · intro s n root mp pidx slot hdup
    have h1 : record_nullifier s n root mp pidx slot = .error .duplicateNullifier := by
      simp [record_nullifier, hdup]
    exact ⟨h1, by simp [runTx, h1]⟩
  · intro s pd r slot vk ver hpause hdup
    have h1 : withdraw s pd r slot vk ver = .error .duplicateNullifier := by
      simp [withdraw, hpause, hdup]
    exact ⟨h1, by simp [runTx, h1]⟩

/-- C1 witness at concrete inputs. -/
theorem C1_duplicate_nullifier_rejected_witness :
    nullifierExists dupChain leafL = true ∧
    (record_nullifier dupChain leafL zeroRoot [] [] 60 = .error .duplicateNullifier ∧
      runTx dupChain (record_nullifier dupChain leafL zeroRoot [] [] 60) = dupChain) ∧
    dupChain.pool.paused = false ∧
    nullifierExists dupChain dupWithdrawBundle.nullifier = true ∧
    (withdraw dupChain dupWithdrawBundle [9] 60 true true = .error .duplicateNullifier ∧
      runTx dupChain (withdraw dupChain dupWithdrawBundle [9] 60 true true) = dupChain) := by
  refine ⟨by decide, ?_, rfl, by decide, ?_⟩
  · exact C1_duplicate_nullifier_rejected.1 dupChain leafL zeroRoot [] [] 60 (by decide)
  · exact C1_duplicate_nullifier_rejected.2 dupChain dupWithdrawBundle [9] 60 true true
      rfl (by decide)

/-- C9: every successful emergency withdrawal decreases total_shielded by
exactly the requested amount (which it covers), while the commitment root,
its slot, the whole inline root history and its slots, the ring index, the
last batch nullifiers root and the nullifier counter stay unchanged, and no
nullifier entry is created. -/
theorem C9_emergency_withdraw_frame :
    ∀ (s : ChainState) (caller recipient : Key) (amount : Nat) (s' : ChainState),
      emergency_withdraw s caller recipient amount = .ok s' →
      s'.pool.total_shielded = s.pool.total_shielded - amount ∧
      amount ≤ s.pool.total_shielded ∧
      s'.pool.commitment_root = s.pool.commitment_root ∧
      s'.pool.commitment_root_slot = s.pool.commitment_root_slot ∧
      s'.pool.historical_roots = s.pool.historical_roots ∧
      s'.pool.historical_roots_slots = s.pool.historical_roots_slots ∧
      s'.pool.roots_index = s.pool.roots_index ∧
      s'.pool.last_nullifiers_root = s.pool.last_nullifiers_root ∧
      s'.pool.total_nullifiers = s.pool.total_nullifiers ∧
      s'.nullifiers = s.nullifiers := by
  intro s caller recipient amount s' h
  simp only [emergency_withdraw, checkedSub, checkedAdd] at h
  split at h
  · simp at h
  split at h
  · simp at h
  split at h
  · simp at h
  split at h
  · simp at h
  split at h
  · simp at h
  split at h
  · simp at h
  rename_i tn heqsub
  split at h
  · simp at h
  have hle : amount ≤ s.pool.total_shielded := by
    by_contra hc
    simp [hc] at heqsub
  have htn : tn = s.pool.total_shielded - amount := by
    simp [hle] at heqsub
    omega
  obtain rfl : _ = s' := by simpa using h
  simp [htn, hle]

/-- C9 witness at concrete inputs. -/
theorem C9_emergency_withdraw_frame_witness :
    emergency_withdraw c9Chain [1] [9] 200 = .ok c9After ∧
    (c9After.pool.total_shielded = c9Chain.pool.total_shielded - 200 ∧
      200 ≤ c9Chain.pool.total_shielded ∧
      c9After.pool.commitment_root = c9Chain.pool.commitment_root ∧
      c9After.pool.commitment_root_slot = c9Chain.pool.commitment_root_slot ∧
      c9After.pool.historical_roots = c9Chain.pool.historical_roots ∧
      c9After.pool.historical_roots_slots = c9Chain.pool.historical_roots_slots ∧
      c9After.pool.roots_index = c9Chain.pool.roots_index ∧
      c9After.pool.last_nullifiers_root = c9Chain.pool.last_nullifiers_root ∧
      c9After.pool.total_nullifiers = c9Chain.pool.total_nullifiers ∧
      c9After.nullifiers = c9Chain.nullifiers) := by
  exact ⟨rfl, C9_emergency_withdraw_frame c9Chain [1] [9] 200 c9After rfl⟩

/-- C2 counterexample: on a freshly initialized pool (whose current
commitment_root is the all-zero root) at the initialization slot, the
inline check reports the all-zero root VALID, contradicting the claim that
it is reported invalid for every pool state. -/
theorem C2_zero_root_valid_on_fresh_pool :
    is_valid_root_with_expiration basePool zeroRoot 100 = true := by
  decide

/-- C2 (amended): the extended buffer check always rejects the all-zero
root, but the inline PoolState check accepts it while it is the (unexpired)
current commitment_root — in particular on a freshly initialized pool. -/
theorem C2_zero_root_validity :
    (∀ (h : HistoricalRoots) (s : Nat), contains_with_expiration h zeroRoot s = false) ∧
    (∀ (authority token_mint vk_hash per_authority token_vault : Bytes) (slot0 s : Nat),
      s - slot0 ≤ MAX_ROOT_AGE_SLOTS →
      is_valid_root_with_expiration
        (init_pool authority token_mint vk_hash per_authority token_vault slot0)
        zeroRoot s = true) := by
  constructor
  · intro h s
    simp [contains_with_expiration]
  · intro a tm vk pa tv slot0 s hs
    simp [is_valid_root_with_expiration, init_pool, hs]

/-- C2 witness at concrete inputs. -/
theorem C2_zero_root_validity_witness :
    contains_with_expiration (init_historical_roots [1]) zeroRoot 0 = false ∧
    200 - 100 ≤ MAX_ROOT_AGE_SLOTS ∧
    is_valid_root_with_expiration (init_pool [1] [2] [3] [4] [5] 100) zeroRoot 200 = true := by
  refine ⟨C2_zero_root_validity.1 (init_historical_roots [1]) 0, by decide, ?_⟩
  exact C2_zero_root_validity.2 [1] [2] [3] [4] [5] 100 200 (by decide)

/-- C3 counterexample: from a freshly initialized pool, pause, enable
emergency mode, then unpause: the resulting state is reachable yet has
emergency_mode true with paused false, refuting the claimed invariant. -/
theorem C3_emergency_without_paused_reachable :
    c3Trace = .ok c3Final ∧ Reachable c3Final ∧
    c3Final.pool.emergency_mode = true ∧ c3Final.pool.paused = false := by
  refine ⟨rfl, ?_, rfl, rfl⟩
  have r0 : Reachable baseChain := Reachable.init [1] [2] [3] [4] [5] 100
  have r1 := Reachable.pause _ _ [1] true r0 rfl
  have r2 := Reachable.emergency _ _ [1] true r1 rfl
  exact Reachable.pause _ _ [1] false r2 rfl

/-- C3 (amended): emergency mode can only be ENTERED while the pool is
paused (set_emergency_mode(true) requires paused and leaves it paused), but
the implication emergency_mode → paused is not an invariant of all
reachable states, since set_paused(false) does not clear emergency mode. -/
theorem C3_emergency_entry_requires_paused :
    ∀ (s : ChainState) (caller : Key) (s' : ChainState),
      set_emergency_mode s caller true = .ok s' →
      s.pool.paused = true ∧ s'.pool.paused = true ∧ s'.pool.emergency_mode = true := by
  intro s caller s' h
  simp only [set_emergency_mode] at h
  split at h
  · simp at h
  · split at h
    · simp at h
    · rename_i hcond
      have hp : s.pool.paused = true := by
        by_contra hq
        exact hcond ⟨by trivial, by simpa using hq⟩
      obtain rfl : ({ s with pool := { s.pool with emergency_mode := true } } : ChainState) = s' := by
        simpa using h
      exact ⟨hp, hp, rfl⟩

/-- C3 witness at concrete inputs. -/
theorem C3_emergency_entry_requires_paused_witness :
    set_emergency_mode pausedChain [1] true = .ok emChain ∧
    pausedChain.pool.paused = true ∧ emChain.pool.paused = true ∧
    emChain.pool.emergency_mode = true := by
  exact ⟨rfl, C3_emergency_entry_requires_paused pausedChain [1] emChain rfl⟩

/-- Keccak-256 test vector: hash of the empty message. -/
theorem keccak256_empty : keccak256 [] =
    [0xc5, 0xd2, 0x46, 0x01, 0x86, 0xf7, 0x23, 0x3c, 0x92, 0x7e, 0x7d, 0xb2,
     0xdc, 0xc7, 0x03, 0xc0, 0xe5, 0x00, 0xb6, 0x53, 0xca, 0x82, 0x27, 0x3b,
     0x7b, 0xfa, 0xd8, 0x04, 0x5d, 0x85, 0xa4, 0x70] := by
  decide

/-- Keccak-256 test vector: hash of the three-byte message 0x616263. -/
theorem keccak256_abc : keccak256 [0x61, 0x62, 0x63] =
    [0x4e, 0x03, 0x65, 0x7a, 0xea, 0x45, 0xa9, 0x4f, 0xc7, 0xd4, 0x7b, 0xa8,
     0x26, 0xc8, 0xd6, 0x67, 0xc0, 0xd1, 0xe6, 0xe3, 0x3a, 0x64, 0xa0, 0x36,
     0xec, 0x44, 0xf5, 0x8f, 0xa1, 0x2d, 0x6c, 0x45] := by
  decide

/-- C8 counterexample: with leaf L = [1u8;32] and sibling A = [2u8;32], the
fold at path bit 0 does NOT place the sibling A on the left: the computed
root differs from keccak256(A ‖ L). (Bit 0 makes the current node the left
child, so the root is keccak256(L ‖ A).) -/
theorem C8_bit0_sibling_not_left :
    compute_merkle_root_with_indices leafL [sibA] [0] ≠ keccak256 (sibA ++ leafL) := by
  decide

/-- C8 (amended): the Merkle fold of record_nullifier orders nodes by the
explicit path bit — at bit 0 the current node is the LEFT child (sibling A
on the right, root keccak256(L ‖ A)), at bit 1 the current node is the
RIGHT child (sibling A on the left, root keccak256(A ‖ L)) — and the roots
computed for bit 0 and bit 1 differ, so ordering is decided by the bit and
not by comparing digest values. -/
theorem C8_merkle_path_bit_ordering :
    compute_merkle_root_with_indices leafL [sibA] [0] = keccak256 (leafL ++ sibA) ∧
    compute_merkle_root_with_indices leafL [sibA] [1] = keccak256 (sibA ++ leafL) ∧
    compute_merkle_root_with_indices leafL [sibA] [0] ≠
      compute_merkle_root_with_indices leafL [sibA] [1] := by
  refine ⟨rfl, rfl, by decide⟩

/-- Decoding the 8 big-endian bytes of a u64 recovers the value. -/
theorem beBytesToNat_u64ToBeBytes (v : Nat) (h : v < 2 ^ 64) :
    beBytesToNat (u64ToBeBytes v) = v := by
  simp only [beBytesToNat, u64ToBeBytes, List.foldl]
  norm_num
  omega

/-- Leading zero bytes do not change the big-endian value. -/
theorem beBytesToNat_replicate_zero_append (n : Nat) (l : Bytes) :
    beBytesToNat (List.replicate n 0 ++ l) = beBytesToNat l := by
  induction n with
  | zero => simp
  | succ k ih =>
    simpa [beBytesToNat, List.replicate_succ, List.foldl] using ih

/-- The low 8 bytes of an encoded u64 field. -/
theorem u64_to_field_drop (v : Nat) : (u64_to_field v).drop 24 = u64ToBeBytes v := by
  rw [u64_to_field]
  exact List.drop_left' (by simp)

/-- The high 24 bytes of an encoded u64 field. -/
theorem u64_to_field_take (v : Nat) :
    (u64_to_field v).take 24 = List.replicate 24 (0 : Nat) := by
  rw [u64_to_field]
  exact List.take_left' (by simp)

/-- C7: for every u64 value v, field_to_u64 (u64_to_field v) succeeds and
returns v; and for every 32-byte field f with some non-zero byte among its
first 24 bytes, field_to_u64 f fails (with InvalidProof). -/
theorem C7_field_encoding_roundtrip :
    (∀ v : Nat, v < 2 ^ 64 → field_to_u64 (u64_to_field v) = .ok v) ∧
    (∀ f : Bytes, f.length = 32 → (∃ b ∈ f.take 24, b ≠ 0) →
      field_to_u64 f = .error .invalidProof) := by
  constructor
  · intro v hv
    have hval : beBytesToNat ((u64_to_field v).drop 24) = v := by
      rw [u64_to_field_drop]; exact beBytesToNat_u64ToBeBytes v hv
    have hfull : beBytesToNat (u64_to_field v) = v := by
      rw [u64_to_field]; rw [beBytesToNat_replicate_zero_append]
      exact beBytesToNat_u64ToBeBytes v hv
    have hmod : v < bn254FieldModulus := by
      calc v < 2 ^ 64 := hv
        _ < bn254FieldModulus := by norm_num [bn254FieldModulus]
    simp [field_to_u64, hval, hfull, hmod]
    intro x hx
    rw [u64_to_field_take] at hx
    exact List.eq_of_mem_replicate hx
  · intro f _ hex
    obtain ⟨b, hb, hbne⟩ := hex
    simp [field_to_u64]
    intro hall
    exact absurd (hall b hb) hbne

/-- C7 witness at concrete inputs. -/
theorem C7_field_encoding_roundtrip_witness :
    field_to_u64 (u64_to_field 5) = .ok 5 ∧
    field_to_u64 (1 :: List.replicate 31 0) = .error .invalidProof := by
  refine ⟨C7_field_encoding_roundtrip.1 5 (by norm_num), ?_⟩
  exact C7_field_encoding_roundtrip.2 (1 :: List.replicate 31 0) (by decide)
    ⟨1, by decide, by decide⟩

/-- C10: a successful deposit with the extended account supplied pushes the
displaced old commitment root into the extended buffer stamped with the
transition's current slot, while update_root stores the same root in the
inline buffer stamped with its original commitment_root_slot — so when the
two slots differ, the two tiers hold the same root under different stamps. -/
theorem C10_two_tier_stamp_divergence :
    ∀ (s : ChainState) (amount : Nat) (pd : DepositProofData) (cs : Nat)
      (vk ver : Bool) (va : Nat) (h : HistoricalRoots) (s' : ChainState),
      s.historical = some h →
      deposit s amount pd cs vk ver va = .ok s' →
      s'.historical = some (push h s.pool.commitment_root cs) ∧
      (push h s.pool.commitment_root cs).roots h.roots_index = s.pool.commitment_root ∧
      (push h s.pool.commitment_root cs).slots h.roots_index = cs ∧
      s'.pool.historical_roots s.pool.roots_index = s.pool.commitment_root ∧
      s'.pool.historical_roots_slots s.pool.roots_index = s.pool.commitment_root_slot ∧
      (cs ≠ s.pool.commitment_root_slot →
        (push h s.pool.commitment_root cs).slots h.roots_index ≠
          s'.pool.historical_roots_slots s.pool.roots_index) := by
  intro s amount pd cs vk ver va h s' hh hdep
  simp only [deposit, checkedSub, checkedAdd] at hdep
  split at hdep
  · simp at hdep
  split at hdep
  · simp at hdep
  split at hdep
  · simp at hdep
  split at hdep
  · simp at hdep
  split at hdep
  · simp at hdep
  split at hdep
  · simp at hdep
  split at hdep
  · simp at hdep
  split at hdep
  · simp at hdep
  split at hdep
  · simp at hdep
  split at hdep
  · simp at hdep
  rw [hh] at hdep
  obtain rfl : _ = s' := by simpa using hdep
  have hpe : ¬(h.roots_index = (h.roots_index + 1) % HISTORICAL_ROOTS_CAPACITY) := by
    simp only [HISTORICAL_ROOTS_CAPACITY]
    omega
  have hpi : ¬(s.pool.roots_index = (s.pool.roots_index + 1) % HISTORICAL_ROOTS_SIZE) := by
    simp only [HISTORICAL_ROOTS_SIZE]
    omega
  have e1 : (push h s.pool.commitment_root cs).roots h.roots_index =
      s.pool.commitment_root := by
    simp [push, hpe]
  have e2 : (push h s.pool.commitment_root cs).slots h.roots_index = cs := by
    simp [push, hpe]
  have e3 : (update_root s.pool pd.new_root cs).historical_roots s.pool.roots_index =
      s.pool.commitment_root := by
    simp [update_root, hpi]
  have e4 : (update_root s.pool pd.new_root cs).historical_roots_slots s.pool.roots_index =
      s.pool.commitment_root_slot := by
    simp [update_root, hpi]
  refine ⟨rfl, e1, e2, by simpa using e3, by simpa using e4, ?_⟩
  intro hne
  rw [e2]
  simp only [e4]
  simpa using hne

/-- C10 witness at concrete inputs. -/
theorem C10_two_tier_stamp_divergence_witness :
    c10Chain.historical = some (init_historical_roots [1]) ∧
    deposit c10Chain 1000 c10Bundle 120 true true 1000 = .ok c10After ∧
    (c10After.historical = some (push (init_historical_roots [1])
        c10Chain.pool.commitment_root 120) ∧
      (push (init_historical_roots [1]) c10Chain.pool.commitment_root 120).roots
        (init_historical_roots [1]).roots_index = c10Chain.pool.commitment_root ∧
      (push (init_historical_roots [1]) c10Chain.pool.commitment_root 120).slots
        (init_historical_roots [1]).roots_index = 120 ∧
      c10After.pool.historical_roots c10Chain.pool.roots_index =
        c10Chain.pool.commitment_root ∧
      c10After.pool.historical_roots_slots c10Chain.pool.roots_index =
        c10Chain.pool.commitment_root_slot ∧
      (120 ≠ c10Chain.pool.commitment_root_slot →
        (push (init_historical_roots [1]) c10Chain.pool.commitment_root 120).slots
          (init_historical_roots [1]).roots_index ≠
          c10After.pool.historical_roots_slots c10Chain.pool.roots_index)) := by
  exact ⟨rfl, rfl,
    C10_two_tier_stamp_divergence c10Chain 1000 c10Bundle 120 true true 1000
      (init_historical_roots [1]) c10After rfl rfl⟩

end NoirWire

